import Mathlib

/-!
Shallow embedding of the kubernetes deployment and role resources of this
terraform provider.  The embedding covers the schema state migrator
(`resourceKubernetesDeploymentStateUpgrader`, `migrateStateV0toV1`,
`migrateStateV1toV2`), the convergence poll function
(`waitForDeploymentReplicasFunc`), the deployment delete / read / update /
exists operations, and the role lifecycle functions.  External collaborators
(the kubernetes client, the terraform helper library) are abstracted as
explicit call outcomes; every call the code issues is recorded in a trace so
that call ordering can be stated.
-/

/-- Go `error` values as they appear in these two files: either a structured
kubernetes status error (`*errors.StatusError`, carrying `ErrStatus.Code`)
or any other error, carried as its message. -/
inductive Err where
  | statusError (code : Nat) : Err
  | otherErr (msg : String) : Err
deriving DecidableEq, Repr

/-- The flat `map[string]string` attribute map of a terraform
`InstanceState`, modelled as an association list. -/
abbrev AttrMap := List (String × String)

/-- Map lookup, as Go `is.Attributes[k]` with its ok flag. -/
def attrLookup : AttrMap → String → Option String
  | [], _ => none
  | (k', v) :: rest, k => if k' = k then some v else attrLookup rest k

/-- Map insertion `m[k] = v`: replaces the value when the key is present,
appends otherwise. -/
def attrInsert : AttrMap → String → String → AttrMap
  | [], k, v => [(k, v)]
  | (k', v') :: rest, k, v =>
    if k' = k then (k, v) :: rest else (k', v') :: attrInsert rest k v

/-- Go `strings.HasPrefix`, on the character lists of the two strings. -/
def hasPref (s p : String) : Bool := p.data.isPrefixOf s.data

/-- Go `strings.Replace(s, pat, repl, 1)`: replace the first occurrence of
`pat` (never empty at the call sites embedded here) by `repl`. -/
def replFirst (pat repl : List Char) : List Char → List Char
  | [] => []
  | c :: rest =>
    if pat.isPrefixOf (c :: rest) then repl ++ List.drop pat.length (c :: rest)
    else c :: replFirst pat repl rest

/-- Whether `migrateStateV0toV1` leaves the attribute `k` where it is
(`continue` branches of the loop); `hasDest` is whether the map holds
`metadata.0.name`, a fact stable across the whole loop because that key is
never deleted nor inserted into `is.Attributes` while it runs. -/
def keepsKey (hasDest : Bool) (k : String) : Bool :=
  if hasPref k "name" then hasDest
  else if hasPref k "spec.0.template" then
    hasPref k "spec.0.template.0.spec" || hasPref k "spec.0.template.0.metadata"
  else true

/-- The destination key of an attribute moved by `migrateStateV0toV1`:
`name`-prefixed keys go to `metadata.0.name`, the remaining moved keys get
`spec.0.template.0` rewritten to `spec.0.template.0.spec.0`. -/
def movedKey (k : String) : String :=
  if hasPref k "name" then "metadata.0.name"
  else String.mk (replFirst "spec.0.template.0".data "spec.0.template.0.spec.0".data k.data)

/-- `migrateStateV0toV1`: one pass over the attributes; kept entries stay,
moved entries are deleted and re-inserted at `movedKey` through the
`newTemplate` map, which is merged back at the end.  The step itself always
returns a nil error in the source. -/
def migrateStateV0toV1 (attrs : AttrMap) : AttrMap :=
  let hasDest := (attrLookup attrs "metadata.0.name").isSome
  let kept := attrs.filter (fun kv => keepsKey hasDest kv.1)
  let movedPairs :=
    (attrs.filter (fun kv => !(keepsKey hasDest kv.1))).map
      (fun kv => (movedKey kv.1, kv.2))
  movedPairs.foldl (fun m kv => attrInsert m kv.1 kv.2) kept

/-- `migrateStateV1toV2`: unconditionally writes the two new schema fields.
The step always returns a nil error in the source. -/
def migrateStateV1toV2 (attrs : AttrMap) : AttrMap :=
  attrInsert (attrInsert attrs "spec.0.paused" "false")
    "spec.0.progress_deadline_seconds" "600"

/-- The persisted record handed to the migrator: a `terraform.InstanceState`
restricted to the part this code touches, its flat attribute map. -/
structure InstanceState where
  attributes : AttrMap
deriving DecidableEq, Repr

/-- Modelled from the spec: `InstanceState.Empty` is defined by the
terraform helper library, whose source is not part of this repository; the
spec describes the empty record as one with no attributes at all, the
never-created sentinel. -/
def InstanceState.isEmpty (is : InstanceState) : Bool := is.attributes.isEmpty

/-- `resourceKubernetesDeploymentStateUpgrader`: empty state short-circuits;
otherwise a single `switch` on the version selects one migration step, and
any other version produces the `Unexpected schema version` error.  Note the
`switch` has no fallthrough: `case 0` applies only `migrateStateV0toV1`. -/
def resourceKubernetesDeploymentStateUpgrader (v : Int) (is : InstanceState) :
    InstanceState × Option Err :=
  if is.isEmpty then (is, none)
  else
    match v with
    | 0 => (⟨migrateStateV0toV1 is.attributes⟩, none)
    | 1 => (⟨migrateStateV1toV2 is.attributes⟩, none)
    | _ => (is, some (Err.otherErr ("Unexpected schema version: " ++ toString v)))

/-- Go `strings.Split(id, "/")` on the character list: splits at every
slash, never returning an empty list. -/
def splitOnSlash : List Char → List (List Char)
  | [] => [[]]
  | c :: rest =>
    match splitOnSlash rest with
    | [] => [[c]]
    | h :: t => if c = '/' then [] :: h :: t else (c :: h) :: t

/-- Modelled from the spec: `idParts` is code of this repository that is not
under `src/` (only its callers are).  Per the spec, identity is built
deterministically from (namespace, name) and parsed back into its
constituent parts with a single canonical separator convention; a malformed
identity yields empty parts together with an error, which the role resource
then returns early. -/
def idParts (id : String) : String × String × Option Err :=
  match splitOnSlash id.data with
  | [ns, name] => (String.mk ns, String.mk name, none)
  | _ => ("", "", some (Err.otherErr ("unexpected ID format: " ++ id)))

/-- The slice of `schema.ResourceData` these operations touch: the stored
identity (read by `d.Id()`, written by `d.SetId`) and the attribute record.
The `d.Get` / `d.Set` attribute traffic of the read path is abstracted. -/
structure ResourceData where
  id : String
  attributes : AttrMap
deriving DecidableEq, Repr

/-- A patch value as it occurs in this code: the integer 0 written to
`/spec/replicas` by delete, or the expanded spec object of update. -/
inductive PatchValue where
  | intVal (n : Int) : PatchValue
  | specVal : PatchValue
deriving DecidableEq, Repr

/-- One JSON-patch operation (only `replace` is emitted by the embedded
code paths). -/
inductive PatchOp where
  | replace (path : String) (value : PatchValue) : PatchOp
deriving DecidableEq, Repr

/-- One call issued against the external kubernetes API, with the namespace
and name it was addressed to. -/
inductive ApiCall where
  | get (ns name : String) : ApiCall
  | patch (ns name : String) (ops : List PatchOp) : ApiCall
  | wait (ns name : String) : ApiCall
  | delete (ns name : String) (propagation : Option String) : ApiCall
deriving DecidableEq, Repr

/-- `resourceKubernetesDeploymentExists`: parses the identity, discarding
the parse error (the `err` variable is immediately overwritten by the `Get`
call), then maps a structured 404 to `(false, nil)` and returns
`(true, err)` otherwise. -/
def resourceKubernetesDeploymentExists (d : ResourceData)
    (get : String → String → Option Err) : Bool × Option Err :=
  let ns := (idParts d.id).1
  let name := (idParts d.id).2.1
  match get ns name with
  | some (Err.statusError code) =>
    if code = 404 then (false, none) else (true, some (Err.statusError code))
  | e => (true, e)

/-- Outcomes of the external calls made by the deployment delete path:
`marshalErr` for `ops.MarshalJSON()`, then the replicas patch, the
`resource.Retry` convergence wait, and the foreground delete. -/
structure DeployEnv where
  marshalErr : Option Err
  patchErr : Option Err
  waitErr : Option Err
  deleteErr : Option Err
deriving DecidableEq, Repr

/-- `resourceKubernetesDeploymentDelete`: parse identity (parse error
discarded, overwritten by the marshal result), patch `/spec/replicas` to 0,
wait for replicas to converge, foreground-delete, clear the identity.  Each
failing step returns its error before the next call is issued. -/
def resourceKubernetesDeploymentDelete (d : ResourceData) (env : DeployEnv) :
    ResourceData × List ApiCall × Option Err :=
  let ns := (idParts d.id).1
  let name := (idParts d.id).2.1
  let patchCall := ApiCall.patch ns name [PatchOp.replace "/spec/replicas" (PatchValue.intVal 0)]
  match env.marshalErr with
  | some e => (d, [], some e)
  | none =>
    match env.patchErr with
    | some e => (d, [patchCall], some e)
    | none =>
      match env.waitErr with
      | some e => (d, [patchCall, ApiCall.wait ns name], some e)
      | none =>
        match env.deleteErr with
        | some e =>
          (d, [patchCall, ApiCall.wait ns name, ApiCall.delete ns name (some "Foreground")], some e)
        | none =>
          ({ d with id := "" },
            [patchCall, ApiCall.wait ns name, ApiCall.delete ns name (some "Foreground")], none)

/-- The full call sequence of a successful deployment delete, used to state
its ordering property. -/
def fullDeleteTrace (ns name : String) : List ApiCall :=
  [ApiCall.patch ns name [PatchOp.replace "/spec/replicas" (PatchValue.intVal 0)],
   ApiCall.wait ns name, ApiCall.delete ns name (some "Foreground")]

/-- Outcomes of the calls made by the deployment read path: the `Get`, the
`d.Set("metadata", ...)`, the `flattenDeploymentSpec`, and the
`d.Set("spec", ...)`; the label reconciliation and the flattened values
themselves are abstracted away, only the call/error structure is kept. -/
structure ReadEnv where
  getErr : Option Err
  setMetadataErr : Option Err
  flattenSpecErr : Option Err
  setSpecErr : Option Err
deriving DecidableEq, Repr

/-- `resourceKubernetesDeploymentRead`: parse identity (parse error
discarded, overwritten by the `Get` result), get the deployment, then set
metadata, flatten the spec and set it, returning the first error met. -/
def resourceKubernetesDeploymentRead (d : ResourceData) (env : ReadEnv) :
    List ApiCall × Option Err :=
  let ns := (idParts d.id).1
  let name := (idParts d.id).2.1
  match env.getErr with
  | some e => ([ApiCall.get ns name], some e)
  | none =>
    match env.setMetadataErr with
    | some e => ([ApiCall.get ns name], some e)
    | none =>
      match env.flattenSpecErr with
      | some e => ([ApiCall.get ns name], some e)
      | none =>
        match env.setSpecErr with
        | some e => ([ApiCall.get ns name], some e)
        | none => ([ApiCall.get ns name], none)

/-- Outcomes of the calls made by the deployment update path: the
`patchMetadata` operations, whether `d.HasChange("spec")` fired, the
`expandDeploymentSpec` result, the marshal, the patch, the wait, and the
final read. -/
structure UpdateEnv where
  metadataOps : List PatchOp
  hasChangeSpec : Bool
  expandSpecErr : Option Err
  marshalErr : Option Err
  patchErr : Option Err
  waitErr : Option Err
  readEnv : ReadEnv
deriving DecidableEq, Repr

/-- `resourceKubernetesDeploymentUpdate`: parse identity (parse error
discarded, overwritten by the marshal result), build the patch operations,
patch, wait, then read. -/
def resourceKubernetesDeploymentUpdate (d : ResourceData) (env : UpdateEnv) :
    List ApiCall × Option Err :=
  let ns := (idParts d.id).1
  let name := (idParts d.id).2.1
  match (if env.hasChangeSpec then env.expandSpecErr else none) with
  | some e => ([], some e)
  | none =>
    let ops := env.metadataOps ++
      (if env.hasChangeSpec then [PatchOp.replace "/spec" PatchValue.specVal] else [])
    match env.marshalErr with
    | some e => ([], some e)
    | none =>
      match env.patchErr with
      | some e => ([ApiCall.patch ns name ops], some e)
      | none =>
        match env.waitErr with
        | some e => ([ApiCall.patch ns name ops, ApiCall.wait ns name], some e)
        | none =>
          let r := resourceKubernetesDeploymentRead d env.readEnv
          ([ApiCall.patch ns name ops, ApiCall.wait ns name] ++ r.1, r.2)

/-- Outcomes of the external calls available to the role operations. -/
structure RoleEnv where
  get : String → String → Option Err
  del : String → String → Option Err

/-- `resourceKubernetesRoleCreate`: the body is `return nil`. -/
def resourceKubernetesRoleCreate (d : ResourceData) (_env : RoleEnv) :
    ResourceData × List ApiCall × Option Err := (d, [], none)

/-- `resourceKubernetesRoleRead`: the body is `return nil`. -/
def resourceKubernetesRoleRead (d : ResourceData) (_env : RoleEnv) :
    ResourceData × List ApiCall × Option Err := (d, [], none)

/-- `resourceKubernetesRoleUpdate`: the body is `return nil`. -/
def resourceKubernetesRoleUpdate (d : ResourceData) (_env : RoleEnv) :
    ResourceData × List ApiCall × Option Err := (d, [], none)

/-- `resourceKubernetesRoleDelete`: unlike the deployment operations, the
`idParts` error is checked and returned before any external call; then the
role is deleted (with default, non-foreground options) and the identity
cleared. -/
def resourceKubernetesRoleDelete (d : ResourceData) (env : RoleEnv) :
    ResourceData × List ApiCall × Option Err :=
  let p := idParts d.id
  match p.2.2 with
  | some e => (d, [], some e)
  | none =>
    match env.del p.1 p.2.1 with
    | some e => (d, [ApiCall.delete p.1 p.2.1 none], some e)
    | none => ({ d with id := "" }, [ApiCall.delete p.1 p.2.1 none], none)

/-- `resourceKubernetesRoleExists`: the `idParts` error is checked and
returned (with `false`) before the `Get`; after that the 404 handling is
the same as the deployment one. -/
def resourceKubernetesRoleExists (d : ResourceData) (env : RoleEnv) :
    Bool × Option Err :=
  let p := idParts d.id
  match p.2.2 with
  | some e => (false, some e)
  | none =>
    match env.get p.1 p.2.1 with
    | some (Err.statusError code) =>
      if code = 404 then (false, none) else (true, some (Err.statusError code))
    | e => (true, e)

/-- The five lifecycle entry points a `schema.Resource` registers. -/
structure RoleResource where
  Create : ResourceData → RoleEnv → ResourceData × List ApiCall × Option Err
  Read : ResourceData → RoleEnv → ResourceData × List ApiCall × Option Err
  Update : ResourceData → RoleEnv → ResourceData × List ApiCall × Option Err
  Delete : ResourceData → RoleEnv → ResourceData × List ApiCall × Option Err
  Exists : ResourceData → RoleEnv → Bool × Option Err

/-- `resourceKubernetesRole`: registers all five lifecycle entry points. -/
def resourceKubernetesRole : RoleResource :=
  { Create := resourceKubernetesRoleCreate
    Read := resourceKubernetesRoleRead
    Update := resourceKubernetesRoleUpdate
    Delete := resourceKubernetesRoleDelete
    Exists := resourceKubernetesRoleExists }

/-- The slice of a `v1beta1.Deployment` read by the poll function: its
name, `*Spec.Replicas` (desired) and `Status.Replicas` (observed). -/
structure Deployment where
  name : String
  specReplicas : Int
  statusReplicas : Int
deriving DecidableEq, Repr

/-- The three outcomes of a `resource.RetryFunc` tick: nil, a retryable
error, or a non-retryable error. -/
inductive RetryResult where
  | ok : RetryResult
  | retryable (msg : String) : RetryResult
  | nonRetryable (e : Err) : RetryResult
deriving DecidableEq, Repr

/-- The retryable message built by the poll function, mirroring
`fmt.Errorf("Waiting for %d replicas of %q to be scheduled (%d)", ...)`. -/
def waitMsg (dep : Deployment) : String :=
  "Waiting for " ++ toString dep.specReplicas ++ " replicas of \"" ++ dep.name ++
    "\" to be scheduled (" ++ toString dep.statusReplicas ++ ")"

/-- One tick of `waitForDeploymentReplicasFunc`: the closure performs a
`Get` each tick; the tick is a function of that result.  A `Get` error is
non-retryable, equal replica counts succeed, differing counts produce the
retryable diagnostic. -/
def waitForDeploymentReplicasFunc (getResult : Except Err Deployment) : RetryResult :=
  match getResult with
  | Except.error e => RetryResult.nonRetryable e
  | Except.ok dep =>
    if dep.statusReplicas = dep.specReplicas then RetryResult.ok
    else RetryResult.retryable (waitMsg dep)

/-- Looking up the key just inserted finds the new value. -/
theorem attrLookup_insert_self (m : AttrMap) (k v : String) :
    attrLookup (attrInsert m k v) k = some v := by
  induction m with
  | nil => simp [attrInsert, attrLookup]
  | cons hd tl ih =>
    obtain ⟨k', v'⟩ := hd
    by_cases h : k' = k <;> simp [attrInsert, attrLookup, h, ih]

/-- Insertion does not change the lookup of a different key. -/
theorem attrLookup_insert_ne (m : AttrMap) (k v k' : String) (h : k' ≠ k) :
    attrLookup (attrInsert m k v) k' = attrLookup m k' := by
  induction m with
  | nil => simp [attrInsert, attrLookup, Ne.symm h]
  | cons hd tl ih =>
    obtain ⟨k₁, v₁⟩ := hd
    by_cases h₁ : k₁ = k
    · subst h₁
      simp [attrInsert, attrLookup, Ne.symm h]
    · simp [attrInsert, attrLookup, h₁, ih]

/-- Lookup through a filter by a key predicate. -/
theorem attrLookup_filterKey (m : AttrMap) (q : String → Bool) (k : String) :
    attrLookup (m.filter (fun kv => q kv.1)) k
      = if q k then attrLookup m k else none := by
  induction m with
  | nil => simp [attrLookup]
  | cons hd tl ih =>
    obtain ⟨k₁, v₁⟩ := hd
    by_cases hq : q k₁
    · by_cases hk : k₁ = k
      · subst hk
        simp [List.filter_cons, hq, attrLookup]
      · simp [List.filter_cons, hq, attrLookup, hk, ih]
    · by_cases hk : k₁ = k
      · subst hk
        simp [List.filter_cons, hq, attrLookup, ih]
      · simp [List.filter_cons, hq, attrLookup, hk, ih]

/-- Lookup after a fold of insertions: when every folded entry at key `k`
carries the value `v`, the result is `v` as soon as one such entry exists,
and the base map value otherwise. -/
theorem attrLookup_foldlInsert (l : List (String × String)) (m : AttrMap)
    (k v : String) (h : ∀ kv ∈ l, kv.1 = k → kv.2 = v) :
    attrLookup (l.foldl (fun acc kv => attrInsert acc kv.1 kv.2) m) k
      = if l.any (fun kv => kv.1 == k) then some v else attrLookup m k := by
  induction l generalizing m with
  | nil => simp
  | cons hd tl ih =>
    obtain ⟨k₁, v₁⟩ := hd
    have htl : ∀ kv ∈ tl, kv.1 = k → kv.2 = v :=
      fun kv hm he => h kv (List.mem_cons_of_mem _ hm) he
    by_cases hk : k₁ = k
    · subst hk
      have hv : v₁ = v := h (k₁, v₁) (List.mem_cons_self _ _) rfl
      subst hv
      rw [List.foldl_cons, ih (attrInsert m k₁ v₁) htl]
      simp [attrLookup_insert_self]
    · rw [List.foldl_cons, ih (attrInsert m k₁ v₁) htl]
      have hb : (k₁ == k) = false := beq_eq_false_iff_ne.mpr hk
      rw [attrLookup_insert_ne m k₁ v₁ k (Ne.symm hk)]
      simp only [List.any_cons, hb, Bool.false_or]

/-- Lookup after a fold of insertions none of which touches the key. -/
theorem attrLookup_foldlInsert_not_mem (l : List (String × String)) (m : AttrMap)
    (k : String) (h : ∀ kv ∈ l, kv.1 ≠ k) :
    attrLookup (l.foldl (fun acc kv => attrInsert acc kv.1 kv.2) m) k
      = attrLookup m k := by
  rw [attrLookup_foldlInsert l m k "" (fun kv hm he => absurd he (h kv hm))]
  have : l.any (fun kv => kv.1 == k) = false := by
    simp only [List.any_eq_false]
    intro kv hm
    simpa using h kv hm
  rw [this]
  simp

/-- A successful lookup exhibits a member of the list. -/
theorem mem_of_attrLookup (m : AttrMap) (k v : String)
    (h : attrLookup m k = some v) : (k, v) ∈ m := by
  induction m with
  | nil => simp [attrLookup] at h
  | cons hd tl ih =>
    obtain ⟨k₁, v₁⟩ := hd
    by_cases hk : k₁ = k
    · subst hk
      simp [attrLookup] at h
      subst h
      exact List.mem_cons_self _ _
    · simp [attrLookup, hk] at h
      exact List.mem_cons_of_mem _ (ih h)

/-- A list with a cons prefix is itself that cons. -/
theorem head_of_isPrefixOf (c : Char) (p l : List Char)
    (h : (c :: p).isPrefixOf l = true) : ∃ t, l = c :: t := by
  cases l with
  | nil => simp [List.isPrefixOf] at h
  | cons a as =>
    simp only [List.isPrefixOf, Bool.and_eq_true, beq_iff_eq] at h
    exact ⟨as, by rw [h.1]⟩

/-- The `spec.0.template.0` rewrite keeps a leading `s` in place: both the
replacement string and an untouched head character start with `s`. -/
theorem replFirst_head_s (t : List Char) :
    ∃ r, replFirst "spec.0.template.0".data "spec.0.template.0.spec.0".data ('s' :: t)
      = 's' :: r := by
  by_cases hp : ("spec.0.template.0".data).isPrefixOf ('s' :: t) = true
  · refine ⟨"pec.0.template.0.spec.0".data
      ++ List.drop ("spec.0.template.0".data).length ('s' :: t), ?_⟩
    simp only [replFirst, hp, if_true]
    rfl
  · refine ⟨replFirst "spec.0.template.0".data "spec.0.template.0.spec.0".data t, ?_⟩
    simp only [Bool.not_eq_true] at hp
    simp only [replFirst, hp, Bool.false_eq_true, if_false]

/-- A key with a `spec`-rooted prefix keeps `s` as its first character
after the `spec.0.template.0` rewrite, so the rewritten key can never be a
`name`-prefixed key nor `metadata.0.name`. -/
theorem movedKey_spec_head (k : String) (h1 : hasPref k "name" = false)
    (h2 : hasPref k "spec.0.template" = true) :
    ∃ t, (movedKey k).data = 's' :: t := by
  have h2' : ('s' :: "pec.0.template".data).isPrefixOf k.data = true := h2
  obtain ⟨t, ht⟩ := head_of_isPrefixOf 's' "pec.0.template".data k.data h2'
  obtain ⟨r, hr⟩ := replFirst_head_s t
  refine ⟨r, ?_⟩
  have hmk : movedKey k
      = String.mk (replFirst "spec.0.template.0".data
          "spec.0.template.0.spec.0".data k.data) := by
    simp [movedKey, h1]
  rw [hmk]
  show replFirst "spec.0.template.0".data "spec.0.template.0.spec.0".data k.data = 's' :: r
  rw [ht]
  exact hr

/-- What being moved means, when the destination key is present. -/
theorem keepsKey_false_of_true (k : String) (h : keepsKey true k = false) :
    hasPref k "name" = false ∧ hasPref k "spec.0.template" = true := by
  by_cases h1 : hasPref k "name"
  · simp [keepsKey, h1] at h
  · by_cases h2 : hasPref k "spec.0.template"
    · exact ⟨by simpa using h1, h2⟩
    · simp [keepsKey, h1, h2] at h

/-- What being moved means, when the destination key is absent. -/
theorem keepsKey_false_of_false (k : String) (h : keepsKey false k = false) :
    hasPref k "name" = true ∨
      (hasPref k "name" = false ∧ hasPref k "spec.0.template" = true) := by
  by_cases h1 : hasPref k "name"
  · exact Or.inl h1
  · by_cases h2 : hasPref k "spec.0.template"
    · exact Or.inr ⟨by simpa using h1, h2⟩
    · simp [keepsKey, h1, h2] at h

/-- C8: for every empty persisted record (no attributes at all) and every
version number, including versions with no registered migration step, the
migration entry point returns the record unchanged and without error. -/
theorem stateUpgrader_empty_noop (v : Int) (is : InstanceState)
    (h : is.isEmpty = true) :
    resourceKubernetesDeploymentStateUpgrader v is = (is, none) := by
  simp [resourceKubernetesDeploymentStateUpgrader, h]

theorem stateUpgrader_empty_noop_witness :
    (InstanceState.mk []).isEmpty = true ∧
    resourceKubernetesDeploymentStateUpgrader 5 (InstanceState.mk []) = (InstanceState.mk [], none) :=
  ⟨by decide, stateUpgrader_empty_noop 5 (InstanceState.mk []) (by decide)⟩

/-- C2, counterexample: a non-empty record already stamped with the latest
schema version 2 is not migrated without error, the entry point returns
the `Unexpected schema version` error for it. -/
theorem stateUpgrader_latest_not_errorfree :
    (resourceKubernetesDeploymentStateUpgrader 2
      (InstanceState.mk [("metadata.0.name", "foo")])).2 ≠ none := by decide

/-- C2, amended: for every non-empty record at the latest schema version 2,
the migration entry point returns the record unchanged but together with
the error `Unexpected schema version: 2`; only the empty record passes
through without error. -/
theorem stateUpgrader_latest_version_errors (is : InstanceState)
    (h : is.isEmpty = false) :
    resourceKubernetesDeploymentStateUpgrader 2 is
      = (is, some (Err.otherErr "Unexpected schema version: 2")) := by
  have h2 : resourceKubernetesDeploymentStateUpgrader 2 is
      = (is, some (Err.otherErr ("Unexpected schema version: " ++ toString (2 : Int)))) := by
    simp [resourceKubernetesDeploymentStateUpgrader, h]
  rw [h2]
  exact congrArg (fun s => (is, some (Err.otherErr s))) (by decide)

theorem stateUpgrader_latest_version_errors_witness :
    (InstanceState.mk [("metadata.0.name", "foo")]).isEmpty = false ∧
    resourceKubernetesDeploymentStateUpgrader 2 (InstanceState.mk [("metadata.0.name", "foo")])
      = (InstanceState.mk [("metadata.0.name", "foo")],
          some (Err.otherErr "Unexpected schema version: 2")) :=
  ⟨by decide,
    stateUpgrader_latest_version_errors (InstanceState.mk [("metadata.0.name", "foo")]) (by decide)⟩

/-- C1: the entry point does not chain migration steps.  A non-empty v0
record receives only the v0 to v1 key relocation: the v1 to v2 defaults
`spec.0.paused` and `spec.0.progress_deadline_seconds` are absent from the
result, although applying the two steps in sequence, as the spec
describes, would have inserted them. -/
theorem stateUpgrader_v0_skips_v1tov2 :
    resourceKubernetesDeploymentStateUpgrader 0 (InstanceState.mk [("name", "foo")])
      = (InstanceState.mk [("metadata.0.name", "foo")], none) ∧
    attrLookup (resourceKubernetesDeploymentStateUpgrader 0
      (InstanceState.mk [("name", "foo")])).1.attributes "spec.0.paused" = none ∧
    attrLookup (resourceKubernetesDeploymentStateUpgrader 0
      (InstanceState.mk [("name", "foo")])).1.attributes "spec.0.progress_deadline_seconds" = none ∧
    attrLookup (migrateStateV1toV2 (migrateStateV0toV1 [("name", "foo")]))
      "spec.0.paused" = some "false" ∧
    attrLookup (migrateStateV1toV2 (migrateStateV0toV1 [("name", "foo")]))
      "spec.0.progress_deadline_seconds" = some "600" := by decide

/-- C9: the role resource registers all five lifecycle entry points, yet
its Create, Read and Update are no-ops: they return success without
issuing any external call and without touching the record. -/
theorem roleLifecycle_cru_noop (d : ResourceData) (env : RoleEnv) :
    resourceKubernetesRole.Create d env = (d, [], none) ∧
    resourceKubernetesRole.Read d env = (d, [], none) ∧
    resourceKubernetesRole.Update d env = (d, [], none) ∧
    resourceKubernetesRole.Delete = resourceKubernetesRoleDelete ∧
    resourceKubernetesRole.Exists = resourceKubernetesRoleExists :=
  ⟨rfl, rfl, rfl, rfl, rfl⟩

/-- C4: one tick of the deployment convergence wait.  A status fetch error
makes the tick non-retryable, carrying that error; a successful fetch
succeeds exactly when observed replicas equal desired replicas, and
otherwise produces the retryable message that mentions both the desired
and the observed replica count. -/
theorem waitForDeploymentReplicas_spec (r : Except Err Deployment) :
    (∀ e, r = Except.error e →
      waitForDeploymentReplicasFunc r = RetryResult.nonRetryable e) ∧
    (∀ dep, r = Except.ok dep →
      ((waitForDeploymentReplicasFunc r = RetryResult.ok)
          ↔ dep.statusReplicas = dep.specReplicas) ∧
      (dep.statusReplicas ≠ dep.specReplicas →
        waitForDeploymentReplicasFunc r = RetryResult.retryable (waitMsg dep) ∧
        (toString dep.specReplicas).data <:+: (waitMsg dep).data ∧
        (toString dep.statusReplicas).data <:+: (waitMsg dep).data)) := by
  constructor
  · rintro e rfl
    rfl
  · rintro dep rfl
    constructor
    · constructor
      · intro h
        by_contra hne
        simp [waitForDeploymentReplicasFunc, hne] at h
      · intro h
        simp [waitForDeploymentReplicasFunc, h]
    · intro hne
      refine ⟨by simp [waitForDeploymentReplicasFunc, hne], ?_, ?_⟩
      · refine ⟨"Waiting for ".data,
          (" replicas of \"" ++ dep.name ++ "\" to be scheduled ("
            ++ toString dep.statusReplicas ++ ")").data, ?_⟩
        simp [waitMsg, String.data_append]
      · refine ⟨("Waiting for " ++ toString dep.specReplicas ++ " replicas of \""
            ++ dep.name ++ "\" to be scheduled (").data, ")".data, ?_⟩
        simp [waitMsg, String.data_append]

theorem waitForDeploymentReplicas_spec_witness :
    waitForDeploymentReplicasFunc (Except.ok (Deployment.mk "dep" 3 2))
      = RetryResult.retryable (waitMsg (Deployment.mk "dep" 3 2)) ∧
    waitForDeploymentReplicasFunc (Except.error (Err.otherErr "boom"))
      = RetryResult.nonRetryable (Err.otherErr "boom") :=
  ⟨(((waitForDeploymentReplicas_spec (Except.ok (Deployment.mk "dep" 3 2))).2
      (Deployment.mk "dep" 3 2) rfl).2 (by decide)).1,
   (waitForDeploymentReplicas_spec (Except.error (Err.otherErr "boom"))).1
      (Err.otherErr "boom") rfl⟩

/-- C3: Exists semantics, for the deployment and (once its identity
parses) the role.  A structured 404 from Get yields `(false, nil)`; any
other non-nil error `e` from Get yields `(true, e)`; a successful Get
yields `(true, nil)`. -/
theorem existsSemantics (d : ResourceData) (get : String → String → Option Err)
    (renv : RoleEnv) :
    (get (idParts d.id).1 (idParts d.id).2.1 = some (Err.statusError 404) →
      resourceKubernetesDeploymentExists d get = (false, none)) ∧
    (∀ e, get (idParts d.id).1 (idParts d.id).2.1 = some e →
      e ≠ Err.statusError 404 →
      resourceKubernetesDeploymentExists d get = (true, some e)) ∧
    (get (idParts d.id).1 (idParts d.id).2.1 = none →
      resourceKubernetesDeploymentExists d get = (true, none)) ∧
    ((idParts d.id).2.2 = none →
      (renv.get (idParts d.id).1 (idParts d.id).2.1 = some (Err.statusError 404) →
        resourceKubernetesRoleExists d renv = (false, none)) ∧
      (∀ e, renv.get (idParts d.id).1 (idParts d.id).2.1 = some e →
        e ≠ Err.statusError 404 →
        resourceKubernetesRoleExists d renv = (true, some e)) ∧
      (renv.get (idParts d.id).1 (idParts d.id).2.1 = none →
        resourceKubernetesRoleExists d renv = (true, none))) := by
  refine ⟨?_, ?_, ?_, ?_⟩
  · intro h
    simp [resourceKubernetesDeploymentExists, h]
  · intro e h hne
    cases e with
    | statusError c =>
      have hc : c ≠ 404 := fun hh => hne (by rw [hh])
      simp [resourceKubernetesDeploymentExists, h, hc]
    | otherErr m =>
      simp [resourceKubernetesDeploymentExists, h]
  · intro h
    simp [resourceKubernetesDeploymentExists, h]
  · intro hp
    refine ⟨?_, ?_, ?_⟩
    · intro h
      simp [resourceKubernetesRoleExists, hp, h]
    · intro e h hne
      cases e with
      | statusError c =>
        have hc : c ≠ 404 := fun hh => hne (by rw [hh])
        simp [resourceKubernetesRoleExists, hp, h, hc]
      | otherErr m =>
        simp [resourceKubernetesRoleExists, hp, h]
    · intro h
      simp [resourceKubernetesRoleExists, hp, h]

theorem existsSemantics_witness :
    resourceKubernetesDeploymentExists (ResourceData.mk "a/b" [])
      (fun _ _ => some (Err.statusError 404)) = (false, none) ∧
    resourceKubernetesRoleExists (ResourceData.mk "a/b" [])
      (RoleEnv.mk (fun _ _ => some (Err.otherErr "net")) (fun _ _ => none))
      = (true, some (Err.otherErr "net")) :=
  ⟨(existsSemantics (ResourceData.mk "a/b" []) (fun _ _ => some (Err.statusError 404))
      (RoleEnv.mk (fun _ _ => none) (fun _ _ => none))).1 rfl,
   ((existsSemantics (ResourceData.mk "a/b" []) (fun _ _ => none)
      (RoleEnv.mk (fun _ _ => some (Err.otherErr "net")) (fun _ _ => none))).2.2.2
        (by decide)).2.1 (Err.otherErr "net") rfl (by decide)⟩

/-- C5: ordering of the deployment delete.  The issued call trace is
always a prefix of patch-replicas-to-zero, wait, foreground-delete; the
delete call appears only after the patch and the wait both succeeded; the
operation succeeds exactly when all steps do, in which case the identity
is cleared and the full trace was issued; a failing step returns its
error with the trace truncated before the next call. -/
theorem deploymentDelete_ordering (d : ResourceData) (env : DeployEnv) :
    (resourceKubernetesDeploymentDelete d env).2.1
        <+: fullDeleteTrace (idParts d.id).1 (idParts d.id).2.1 ∧
    (ApiCall.delete (idParts d.id).1 (idParts d.id).2.1 (some "Foreground")
        ∈ (resourceKubernetesDeploymentDelete d env).2.1 →
      env.marshalErr = none ∧ env.patchErr = none ∧ env.waitErr = none) ∧
    ((resourceKubernetesDeploymentDelete d env).2.2 = none ↔
      env.marshalErr = none ∧ env.patchErr = none ∧ env.waitErr = none ∧
        env.deleteErr = none) ∧
    ((resourceKubernetesDeploymentDelete d env).2.2 = none →
      (resourceKubernetesDeploymentDelete d env).1.id = "" ∧
      (resourceKubernetesDeploymentDelete d env).2.1
        = fullDeleteTrace (idParts d.id).1 (idParts d.id).2.1) ∧
    (∀ e, env.marshalErr = none → env.patchErr = some e →
      resourceKubernetesDeploymentDelete d env
        = (d, [ApiCall.patch (idParts d.id).1 (idParts d.id).2.1
            [PatchOp.replace "/spec/replicas" (PatchValue.intVal 0)]], some e)) ∧
    (∀ e, env.marshalErr = none → env.patchErr = none → env.waitErr = some e →
      resourceKubernetesDeploymentDelete d env
        = (d, [ApiCall.patch (idParts d.id).1 (idParts d.id).2.1
            [PatchOp.replace "/spec/replicas" (PatchValue.intVal 0)],
            ApiCall.wait (idParts d.id).1 (idParts d.id).2.1], some e)) := by
  obtain ⟨me, pe, we, de⟩ := env
  cases me <;> cases pe <;> cases we <;> cases de <;>
    refine ⟨⟨_, rfl⟩, ?_, ?_, ?_, ?_, ?_⟩ <;>
      simp [resourceKubernetesDeploymentDelete, fullDeleteTrace]

theorem deploymentDelete_ordering_witness :
    (resourceKubernetesDeploymentDelete (ResourceData.mk "a/b" [])
        (DeployEnv.mk none none none none)).1.id = "" ∧
    (resourceKubernetesDeploymentDelete (ResourceData.mk "a/b" [])
        (DeployEnv.mk none none none none)).2.1
      = fullDeleteTrace (idParts "a/b").1 (idParts "a/b").2.1 :=
  (deploymentDelete_ordering (ResourceData.mk "a/b" [])
    (DeployEnv.mk none none none none)).2.2.2.1 (by decide)

/-- Two strings whose first characters differ are different. -/
theorem ne_of_data_head (s t : String) (c c' : Char) (hc : c ≠ c')
    (hs : s.data.head? = some c) (ht : t.data.head? = some c') : s ≠ t := by
  intro he
  rw [he] at hs
  rw [hs] at ht
  exact hc (Option.some.inj ht)

/-- A `name`-prefixed key starts with the character `n`. -/
theorem head_of_hasPref_name (k : String) (h : hasPref k "name" = true) :
    k.data.head? = some 'n' := by
  have h' : ('n' :: "ame".data).isPrefixOf k.data = true := h
  obtain ⟨t, ht⟩ := head_of_isPrefixOf 'n' "ame".data k.data h'
  rw [ht]
  rfl

/-- C6: when the record already holds a value at `metadata.0.name`, the
v0 to v1 step preserves that value unchanged and skips the rename: every
`name`-prefixed attribute also keeps its original value at its original
key, and the destination is never overwritten. -/
theorem migrateV0toV1_no_clobber (attrs : AttrMap) (val : String)
    (h : attrLookup attrs "metadata.0.name" = some val) :
    attrLookup (migrateStateV0toV1 attrs) "metadata.0.name" = some val ∧
    ∀ k v, hasPref k "name" = true → attrLookup attrs k = some v →
      attrLookup (migrateStateV0toV1 attrs) k = some v := by
  have hb : (attrLookup attrs "metadata.0.name").isSome = true := by rw [h]; rfl
  have hdef : migrateStateV0toV1 attrs
      = ((attrs.filter (fun kv => !(keepsKey true kv.1))).map
          (fun kv => (movedKey kv.1, kv.2))).foldl
          (fun m kv => attrInsert m kv.1 kv.2)
          (attrs.filter (fun kv => keepsKey true kv.1)) := by
    simp only [migrateStateV0toV1, hb]
  have hheads : ∀ kv ∈ (attrs.filter (fun kv => !(keepsKey true kv.1))).map
      (fun kv => (movedKey kv.1, kv.2)), kv.1.data.head? = some 's' := by
    intro kv hkv
    obtain ⟨⟨k₀, v₀⟩, hmem, hmap⟩ := List.mem_map.mp hkv
    have hk₀ : keepsKey true k₀ = false := by
      have h2 := (List.mem_filter.mp hmem).2
      simpa using h2
    obtain ⟨h1, h2⟩ := keepsKey_false_of_true k₀ hk₀
    obtain ⟨t, ht⟩ := movedKey_spec_head k₀ h1 h2
    rw [← hmap]
    simp [ht]
  constructor
  · have hne1 : ∀ kv ∈ (attrs.filter (fun kv => !(keepsKey true kv.1))).map
        (fun kv => (movedKey kv.1, kv.2)), kv.1 ≠ "metadata.0.name" := by
      intro kv hkv
      exact ne_of_data_head _ _ 's' 'm' (by decide) (hheads kv hkv) rfl
    rw [hdef, attrLookup_foldlInsert_not_mem _ _ _ hne1, attrLookup_filterKey]
    simp [show keepsKey true "metadata.0.name" = true from by decide, h]
  · intro k v hk hkv
    have hne2 : ∀ kv ∈ (attrs.filter (fun kv => !(keepsKey true kv.1))).map
        (fun kv => (movedKey kv.1, kv.2)), kv.1 ≠ k := by
      intro kv hkv'
      exact ne_of_data_head _ _ 's' 'n' (by decide) (hheads kv hkv')
        (head_of_hasPref_name k hk)
    rw [hdef, attrLookup_foldlInsert_not_mem _ _ _ hne2, attrLookup_filterKey]
    have hkk : keepsKey true k = true := by simp [keepsKey, hk]
    simp [hkk, hkv]

theorem migrateV0toV1_no_clobber_witness :
    attrLookup (migrateStateV0toV1 [("name", "a"), ("metadata.0.name", "b")])
      "metadata.0.name" = some "b" ∧
    attrLookup (migrateStateV0toV1 [("name", "a"), ("metadata.0.name", "b")])
      "name" = some "a" :=
  ⟨(migrateV0toV1_no_clobber [("name", "a"), ("metadata.0.name", "b")] "b" (by decide)).1,
   (migrateV0toV1_no_clobber [("name", "a"), ("metadata.0.name", "b")] "b" (by decide)).2
      "name" "a" (by decide) (by decide)⟩

/-- C7, counterexample: on a v0 record that carries both `name` and a
pre-existing `metadata.0.name`, the migration leaves the `name` key in
place, so the migrated value is present at the old key and both keys are
populated simultaneously, contradicting reachable-only-at-the-new-key. -/
theorem migrateV0toV1_name_duplicated :
    attrLookup (resourceKubernetesDeploymentStateUpgrader 0
      (InstanceState.mk [("name", "a"), ("metadata.0.name", "b")])).1.attributes
      "name" = some "a" ∧
    attrLookup (resourceKubernetesDeploymentStateUpgrader 0
      (InstanceState.mk [("name", "a"), ("metadata.0.name", "b")])).1.attributes
      "metadata.0.name" = some "b" := by decide

/-- C7, amended: for a v0 record without a pre-existing `metadata.0.name`
and whose only `name`-prefixed attribute is the single entry
`("name", v)`, the v0 to v1 step moves `v` to `metadata.0.name` and
deletes the old key, so the value is reachable only at the new key.  When
`metadata.0.name` already exists, the old `name` key is instead kept in
place and both keys stay populated. -/
theorem migrateV0toV1_moves_name (attrs : AttrMap) (v : String)
    (hdest : attrLookup attrs "metadata.0.name" = none)
    (honly : ∀ kv ∈ attrs, hasPref kv.1 "name" = true → kv = ("name", v))
    (hname : attrLookup attrs "name" = some v) :
    attrLookup (migrateStateV0toV1 attrs) "metadata.0.name" = some v ∧
    attrLookup (migrateStateV0toV1 attrs) "name" = none := by
  have hb : (attrLookup attrs "metadata.0.name").isSome = false := by rw [hdest]; rfl
  have hdef : migrateStateV0toV1 attrs
      = ((attrs.filter (fun kv => !(keepsKey false kv.1))).map
          (fun kv => (movedKey kv.1, kv.2))).foldl
          (fun m kv => attrInsert m kv.1 kv.2)
          (attrs.filter (fun kv => keepsKey false kv.1)) := by
    simp only [migrateStateV0toV1, hb]
  have hclass : ∀ kv ∈ (attrs.filter (fun kv => !(keepsKey false kv.1))).map
      (fun kv => (movedKey kv.1, kv.2)),
      kv = ("metadata.0.name", v) ∨ kv.1.data.head? = some 's' := by
    intro kv hkv
    obtain ⟨⟨k₀, v₀⟩, hmem, hmap⟩ := List.mem_map.mp hkv
    have hmem₀ : (k₀, v₀) ∈ attrs := (List.mem_filter.mp hmem).1
    have hk₀ : keepsKey false k₀ = false := by
      have h2 := (List.mem_filter.mp hmem).2
      simpa using h2
    rcases keepsKey_false_of_false k₀ hk₀ with hn | ⟨h1, h2⟩
    · left
      have he := honly (k₀, v₀) hmem₀ hn
      injection he with he₁ he₂
      subst he₁
      subst he₂
      rw [← hmap]
      simp [show movedKey "name" = "metadata.0.name" from by decide]
    · right
      obtain ⟨t, ht⟩ := movedKey_spec_head k₀ h1 h2
      rw [← hmap]
      simp [ht]
  constructor
  · have hval : ∀ kv ∈ (attrs.filter (fun kv => !(keepsKey false kv.1))).map
        (fun kv => (movedKey kv.1, kv.2)), kv.1 = "metadata.0.name" → kv.2 = v := by
      intro kv hkv hkey
      rcases hclass kv hkv with he | hs
      · rw [he]
      · exfalso
        rw [hkey] at hs
        have hm : "metadata.0.name".data.head? = some 'm' := rfl
        rw [hm] at hs
        exact absurd (Option.some.inj hs) (by decide)
    have hany : ((attrs.filter (fun kv => !(keepsKey false kv.1))).map
        (fun kv => (movedKey kv.1, kv.2))).any
          (fun kv => kv.1 == "metadata.0.name") = true := by
      apply List.any_eq_true.mpr
      refine ⟨("metadata.0.name", v), ?_, by simp⟩
      apply List.mem_map.mpr
      refine ⟨("name", v), ?_, by simp [show movedKey "name" = "metadata.0.name" from by decide]⟩
      refine List.mem_filter.mpr ⟨mem_of_attrLookup attrs "name" v hname, ?_⟩
      show (!keepsKey false "name") = true
      decide
    rw [hdef, attrLookup_foldlInsert _ _ _ v hval, hany]
    simp
  · have hnone : ∀ kv ∈ (attrs.filter (fun kv => !(keepsKey false kv.1))).map
        (fun kv => (movedKey kv.1, kv.2)), kv.1 ≠ "name" := by
      intro kv hkv
      rcases hclass kv hkv with he | hs
      · intro hcon
        rw [he] at hcon
        simp at hcon
      · exact ne_of_data_head _ _ 's' 'n' (by decide) hs rfl
    rw [hdef, attrLookup_foldlInsert_not_mem _ _ _ hnone, attrLookup_filterKey]
    simp [show keepsKey false "name" = false from by decide]

theorem migrateV0toV1_moves_name_witness :
    attrLookup (migrateStateV0toV1 [("name", "foo")]) "metadata.0.name" = some "foo" ∧
    attrLookup (migrateStateV0toV1 [("name", "foo")]) "name" = none :=
  migrateV0toV1_moves_name [("name", "foo")] "foo" (by decide) (by decide) (by decide)

/-- C10: the deployment operations discard the `idParts` error, its `err`
variable being overwritten before any check, so with a malformed identity
they proceed against the returned empty namespace and name and can run to
completion; the role Delete and Exists instead return the parse error
immediately, before any external call. -/
theorem idParts_error_discarded
    (id : String) (e : Err) (hp : (idParts id).2.2 = some e) (attrs : AttrMap)
    (get : String → String → Option Err)
    (hget : get (idParts id).1 (idParts id).2.1 = none)
    (denv : DeployEnv) (hm : denv.marshalErr = none) (hpa : denv.patchErr = none)
    (hw : denv.waitErr = none) (hdel : denv.deleteErr = none)
    (rdenv : ReadEnv) (hr1 : rdenv.getErr = none) (hr2 : rdenv.setMetadataErr = none)
    (hr3 : rdenv.flattenSpecErr = none) (hr4 : rdenv.setSpecErr = none)
    (uenv : UpdateEnv)
    (hu1 : (if uenv.hasChangeSpec then uenv.expandSpecErr else none) = none)
    (hu2 : uenv.marshalErr = none) (hu3 : uenv.patchErr = none) (hu4 : uenv.waitErr = none)
    (hu5 : uenv.readEnv.getErr = none) (hu6 : uenv.readEnv.setMetadataErr = none)
    (hu7 : uenv.readEnv.flattenSpecErr = none) (hu8 : uenv.readEnv.setSpecErr = none)
    (renv : RoleEnv) :
    (idParts id).1 = "" ∧ (idParts id).2.1 = "" ∧
    resourceKubernetesDeploymentExists (ResourceData.mk id attrs) get = (true, none) ∧
    resourceKubernetesDeploymentRead (ResourceData.mk id attrs) rdenv
      = ([ApiCall.get "" ""], none) ∧
    (resourceKubernetesDeploymentUpdate (ResourceData.mk id attrs) uenv).2 = none ∧
    resourceKubernetesDeploymentDelete (ResourceData.mk id attrs) denv
      = (ResourceData.mk "" attrs, fullDeleteTrace "" "", none) ∧
    resourceKubernetesRoleExists (ResourceData.mk id attrs) renv = (false, some e) ∧
    resourceKubernetesRoleDelete (ResourceData.mk id attrs) renv
      = (ResourceData.mk id attrs, [], some e) := by
  have hid : idParts id = ("", "", some e) := by
    rcases hs : splitOnSlash id.data with _ | ⟨a, _ | ⟨b, _ | ⟨c, l⟩⟩⟩ <;>
      simp only [idParts, hs] at hp ⊢ <;> simp_all
  refine ⟨by rw [hid], by rw [hid], ?_, ?_, ?_, ?_, ?_, ?_⟩
  · rw [hid] at hget
    simp [resourceKubernetesDeploymentExists, hid, hget]
  · simp [resourceKubernetesDeploymentRead, hid, hr1, hr2, hr3, hr4]
  · simp [resourceKubernetesDeploymentUpdate, resourceKubernetesDeploymentRead,
      hid, hu1, hu2, hu3, hu4, hu5, hu6, hu7, hu8]
  · simp [resourceKubernetesDeploymentDelete, hid, hm, hpa, hw, hdel, fullDeleteTrace]
  · simp [resourceKubernetesRoleExists, hid]
  · simp [resourceKubernetesRoleDelete, hid]

theorem idParts_error_discarded_witness :
    resourceKubernetesDeploymentExists (ResourceData.mk "abc" []) (fun _ _ => none)
      = (true, none) ∧
    resourceKubernetesRoleExists (ResourceData.mk "abc" [])
      (RoleEnv.mk (fun _ _ => none) (fun _ _ => none))
      = (false, some (Err.otherErr "unexpected ID format: abc")) := by
  have h := idParts_error_discarded "abc" (Err.otherErr "unexpected ID format: abc")
    (by decide) [] (fun _ _ => none) rfl
    (DeployEnv.mk none none none none) rfl rfl rfl rfl
    (ReadEnv.mk none none none none) rfl rfl rfl rfl
    (UpdateEnv.mk [] false none none none none (ReadEnv.mk none none none none))
    rfl rfl rfl rfl rfl rfl rfl rfl
    (RoleEnv.mk (fun _ _ => none) (fun _ _ => none))
  exact ⟨h.2.2.1, h.2.2.2.2.2.2.1⟩
